import Mathlib

/-!
Verification of the component dependency resolver and the security
validators of the infrastructure generator
(scripts/generators/generate_infrastructure.py and
scripts/security/validator.py), via a shallow embedding in Lean.

Python strings are modelled over their ASCII fragment: NFKC
normalisation is the identity there, str.strip removes ASCII
whitespace, str.lower maps A-Z to a-z, and the regex class d is the
ASCII digits.  Filesystem paths are modelled lexically as lists of
name components of an absolute path; symbolic links are not modelled.
Loops of the source that iterate over a shrinking or growing list are
embedded with an explicit fuel argument; the fuel supplied by the
top-level wrappers is always sufficient for the registry sizes
involved, so the fuel branches are unreachable there.
-/

/-! ### The component registry (generate_infrastructure.py) -/

/-- AVAILABLE_COMPONENTS of InfrastructureGenerator. -/
def AVAILABLE_COMPONENTS : List String :=
  ["terraform-backend", "vpc", "eks-auto", "rds"]

/-- DEPENDENCIES of InfrastructureGenerator, as the total lookup
function DEPENDENCIES.get(component, []): unknown keys map to []. -/
def DEPENDENCIES : String → List String
  | "terraform-backend" => []
  | "vpc" => []
  | "eks-auto" => ["vpc"]
  | "rds" => ["vpc"]
  | _ => []

/-- The cyclic dependency table that the repository test
test_circular_dependency_detection installs in place of DEPENDENCIES. -/
def CYCLIC_DEPENDENCIES : String → List String
  | "vpc" => ["eks-auto"]
  | "eks-auto" => ["vpc"]
  | _ => []

/-! ### _sort_by_dependencies -/

/-- The scanning condition of one iteration of the inner for loop of
_sort_by_dependencies: all(dep in sorted_components or dep not in
components for dep in deps). -/
def placeable (deps : String → List String) (components sorted : List String)
    (c : String) : Bool :=
  (deps c).all (fun d => sorted.contains d || !(components.contains d))

/-- The while loop of _sort_by_dependencies.  Each pass scans
remaining for the first component whose listed dependencies are all
already placed or absent from the working set (the for loop with
break), appends it to sorted_components and removes it from remaining;
if a full pass places nothing (the for-else branch), all remaining
components are appended in their original relative order.  The fuel
argument only makes the recursion structural: each productive pass
removes one element from remaining, so fuel equal to the initial
length of remaining (as supplied by sortByDependencies) never runs
out; the fuel-zero branch returns the same value as the for-else
branch. -/
def sortLoop (deps : String → List String) (components : List String) :
    Nat → List String → List String → List String
  | _, sorted, [] => sorted
  | 0, sorted, remaining => sorted ++ remaining
  | Nat.succ fuel, sorted, remaining =>
    match remaining.find? (placeable deps components sorted) with
    | some c => sortLoop deps components fuel (sorted ++ [c]) (remaining.erase c)
    | none => sorted ++ remaining

/-- InfrastructureGenerator._sort_by_dependencies.  The dependency
table is a parameter because the source reads it from the mutable
class attribute self.DEPENDENCIES (the tests substitute a cyclic
table). -/
def sortByDependencies (deps : String → List String)
    (components : List String) : List String :=
  sortLoop deps components components.length [] components

/-! ### validate_components: dependency expansion, then sort -/

/-- The inner for loop of validate_components: for dep in
DEPENDENCIES.get(component, []): if dep not in self.components:
self.components.append(dep).  Each missing dependency is appended at
the end of the full list, and the membership test sees the appends
made earlier in the same pass. -/
def appendNewDeps (lst : List String) (ds : List String) : List String :=
  ds.foldl (fun acc d => if acc.contains d then acc else acc ++ [d]) lst

/-- The outer for loop of validate_components: Python iterates
self.components by index, so elements appended during the loop are
visited too.  i is the current index; an element outside avail raises
(error).  The fuel argument only makes the recursion structural; the
fuel supplied by validateExpand is always sufficient (each processed
index consumes one unit, every appended dependency is a member of one
of the dependency lists of avail and is appended at most once, so the
final length never exceeds the supplied fuel), making the fuel-zero
error unreachable from validateExpand. -/
def expandLoop (avail : List String) (deps : String → List String) :
    Nat → Nat → List String → Except String (List String)
  | 0, _, _ => Except.error "out of fuel"
  | Nat.succ fuel, i, lst =>
    match lst[i]? with
    | none => Except.ok lst
    | some c =>
      if avail.contains c then
        expandLoop avail deps fuel (i + 1) (appendNewDeps lst (deps c))
      else Except.error ("Unknown component: " ++ c)

/-- The dependency-expansion phase of validate_components. -/
def validateExpand (avail : List String) (deps : String → List String)
    (components : List String) : Except String (List String) :=
  expandLoop avail deps
    (components.length + (avail.map deps).flatten.length + 1) 0 components

/-- InfrastructureGenerator.validate_components: expand missing
dependencies (raising on unknown components), then sort by
dependencies.  The sort receives the expanded list both as the data
and as the working set for its membership tests, exactly as
self._sort_by_dependencies(self.components) does. -/
def validate_components (components : List String) : Except String (List String) :=
  match validateExpand AVAILABLE_COMPONENTS DEPENDENCIES components with
  | Except.ok expanded => Except.ok (sortByDependencies DEPENDENCIES expanded)
  | Except.error e => Except.error e

/-! ### Character and string helpers (ASCII fragment of the Python
string operations used by SecurityValidator) -/

/-- ASCII whitespace, the fragment of what str.strip removes. -/
def isPySpace (c : Char) : Bool :=
  c = ' ' || c = Char.ofNat 9 || c = Char.ofNat 10 || c = Char.ofNat 13 ||
  c = Char.ofNat 11 || c = Char.ofNat 12

/-- Python str.strip() on the ASCII fragment. -/
def asciiStrip (s : String) : String :=
  String.mk (((s.data.dropWhile isPySpace).reverse.dropWhile isPySpace).reverse)

/-- Lowercasing of one ASCII character. -/
def asciiLowerChar (c : Char) : Char :=
  if 'A' ≤ c && c ≤ 'Z' then Char.ofNat (c.toNat + 32) else c

/-- Python str.lower() on the ASCII fragment. -/
def asciiLower (s : String) : String :=
  String.mk (s.data.map asciiLowerChar)

/-- unicodedata.normalize of NFKC followed by strip and lower, on the
ASCII fragment where NFKC is the identity. -/
def pyNormalize (s : String) : String :=
  asciiLower (asciiStrip s)

def isLowerAlpha (c : Char) : Bool := 'a' ≤ c && c ≤ 'z'

def isDigitCh (c : Char) : Bool := '0' ≤ c && c ≤ '9'

def isAlnumCh (c : Char) : Bool := isLowerAlpha c || isDigitCh c

def isAlnumHyph (c : Char) : Bool := isAlnumCh c || c = '-'

/-! ### validate_project_name (validator.py) -/

/-- PROJECT_NAME_PATTERN of SecurityValidator: one lowercase
alphanumeric character, optionally followed by up to 61 lowercase
alphanumeric or hyphen characters and a final lowercase alphanumeric
character (the DNS label shape, at most 63 characters). -/
def projectNamePattern (s : String) : Bool :=
  match s.data with
  | [] => false
  | c :: rest =>
    match rest.getLast? with
    | none => isAlnumCh c
    | some lastc =>
      isAlnumCh c && rest.dropLast.all isAlnumHyph &&
        decide (rest.dropLast.length ≤ 61) && isAlnumCh lastc

/-- The different pattern that the specification ascribes to
validate_project_name: a lowercase letter followed by 2 to 30
lowercase alphanumeric or hyphen characters (3 to 31 characters
total).  Stated from the words of the specification, for comparison
with projectNamePattern taken from the source. -/
def specProjectNamePattern (s : String) : Bool :=
  match s.data with
  | [] => false
  | c :: rest =>
    isLowerAlpha c && rest.all isAlnumHyph &&
      decide (2 ≤ rest.length) && decide (rest.length ≤ 30)

def RESERVED_NAMES : List String := ["tmp", "temp", "admin", "root", "default"]

def MAX_PROJECT_NAME_LENGTH : Nat := 63

/-- SecurityValidator.validate_project_name: reject the empty string,
normalise (NFKC, strip, lower), then check the length bound, the
pattern and the reserved list, returning the normalised name. -/
def validate_project_name (name : String) : Except String String :=
  if name = "" then Except.error "Project name cannot be empty"
  else if (pyNormalize name).length > MAX_PROJECT_NAME_LENGTH then
    Except.error "Project name too long"
  else if !(projectNamePattern (pyNormalize name)) then
    Except.error "Project name must be lowercase alphanumeric"
  else if RESERVED_NAMES.contains (pyNormalize name) then
    Except.error "Project name is reserved"
  else Except.ok (pyNormalize name)

/-! ### validate_aws_account_id (validator.py) -/

/-- AWS_ACCOUNT_ID_PATTERN: exactly 12 digits (ASCII fragment of the
regex class d). -/
def accountIdPattern (s : String) : Bool :=
  decide (s.length = 12) && s.data.all isDigitCh

/-- SecurityValidator.validate_aws_account_id: reject the empty
string, strip, check the 12-digit pattern, reject the two placeholder
values, and return the stripped id. -/
def validate_aws_account_id (account_id : String) : Except String String :=
  if account_id = "" then Except.error "AWS Account ID cannot be empty"
  else if !(accountIdPattern (asciiStrip account_id)) then
    Except.error "AWS Account ID must be exactly 12 digits"
  else if asciiStrip account_id = "000000000000" ∨ asciiStrip account_id = "123456789012" then
    Except.error "Please provide a valid AWS Account ID"
  else Except.ok (asciiStrip account_id)

/-! ### validate_path (validator.py) -/

def MAX_PATH_LENGTH : Nat := 4096

/-- Lexical Path.resolve over the name components of an absolute
path: single dots vanish, a double dot removes the last component
(the parent of the root is the root), other components accumulate.
Symbolic links are outside the model. -/
def resolvePath (p : List String) : List String :=
  p.foldl
    (fun acc comp =>
      if comp = "." then acc
      else if comp = ".." then acc.dropLast
      else acc ++ [comp]) []

/-- str(path) of an absolute path: a slash before every component, a
bare slash for the root. -/
def pathStr (p : List String) : String :=
  if p.isEmpty then "/" else String.join (p.map (fun comp => "/" ++ comp))

/-- The check for an embedded NUL byte in str(path). -/
def pathHasNulByte (p : List String) : Bool :=
  p.any (fun comp => comp.data.any (fun ch => ch = Char.ofNat 0))

/-- SecurityValidator.validate_path: resolve, check the resolved
length bound, check the original path for NUL bytes, and when a base
directory is supplied require resolved.relative_to(base.resolve()) to
succeed, which for absolute paths means the components of the resolved
base are a prefix of the components of the resolved path (equality
included). -/
def validate_path (path : List String) (base_dir : Option (List String)) :
    Except String (List String) :=
  if (pathStr (resolvePath path)).length > MAX_PATH_LENGTH then
    Except.error "Path too long"
  else if pathHasNulByte path then Except.error "Path contains null byte"
  else
    match base_dir with
    | some b =>
      if (resolvePath b).isPrefixOf (resolvePath path) then
        Except.ok (resolvePath path)
      else Except.error "Path is outside allowed directory"
    | none => Except.ok (resolvePath path)

/-! ### sanitize_template_context (validator.py) -/

mutual
/-- A Python value as it can occur in a Jinja template context: a
string (modelled as its character list), a mapping, a list, or any
other scalar. -/
inductive CtxVal : Type where
  | str (s : List Char) : CtxVal
  | dict (entries : CtxDict) : CtxVal
  | list (elems : CtxList) : CtxVal
  | other (n : Int) : CtxVal
/-- A Python dict in insertion order. -/
inductive CtxDict : Type where
  | nil : CtxDict
  | cons (key : String) (val : CtxVal) (rest : CtxDict) : CtxDict
/-- A Python list of context values. -/
inductive CtxList : Type where
  | nil : CtxList
  | cons (v : CtxVal) (rest : CtxList) : CtxList
end

/-- key.startswith of a single underscore. -/
def startsWithUnderscore (k : String) : Bool :=
  match k.data with
  | [] => false
  | c :: _ => c = '_'

def nulChar : Char := Char.ofNat 0

/-- value.replace of NUL with the empty string. -/
def removeNul (s : List Char) : List Char :=
  s.filter (fun ch => !(ch = nulChar))

/-- The length cap on direct string values: value[:10000] when over
10000 characters. -/
def truncate10000 (s : List Char) : List Char :=
  if s.length > 10000 then s.take 10000 else s

mutual
/-- SecurityValidator.sanitize_template_context: drop every key that
starts with an underscore or equals the two reflection names, strip
NUL from and truncate direct string values, recurse into mapping
values, and strip NUL from the string elements of list values. -/
def sanitizeDict : CtxDict → CtxDict
  | .nil => .nil
  | .cons k v rest =>
    if startsWithUnderscore k || k == "__builtins__" || k == "__globals__" then
      sanitizeDict rest
    else .cons k (sanitizeVal v) (sanitizeDict rest)
/-- Sanitisation of one mapping value. -/
def sanitizeVal : CtxVal → CtxVal
  | .str s => .str (truncate10000 (removeNul s))
  | .dict entries => .dict (sanitizeDict entries)
  | .list elems => .list (sanitizeList elems)
  | .other n => .other n
/-- The list comprehension of the list branch: string elements lose
NUL bytes, every other element (mappings included) passes through
unchanged. -/
def sanitizeList : CtxList → CtxList
  | .nil => .nil
  | .cons (.str s) rest => .cons (.str (removeNul s)) (sanitizeList rest)
  | .cons v rest => .cons v (sanitizeList rest)
end

mutual
/-- The guarantee sanitisation actually establishes on a mapping: no
retained key starts with an underscore or is a reflection name, direct
string values are NUL-free and at most 10000 characters, mapping
values satisfy the same recursively, and string elements of list
values are NUL-free.  Mappings nested inside lists are not
constrained. -/
def okDict : CtxDict → Bool
  | .nil => true
  | .cons k v rest =>
    !(startsWithUnderscore k) && !(k == "__builtins__") && !(k == "__globals__") &&
      okVal v && okDict rest
/-- The value part of okDict. -/
def okVal : CtxVal → Bool
  | .str s => s.all (fun ch => !(ch = nulChar)) && decide (s.length ≤ 10000)
  | .dict entries => okDict entries
  | .list elems => okList elems
  | .other _ => true
/-- The list part of okDict. -/
def okList : CtxList → Bool
  | .nil => true
  | .cons (.str s) rest => s.all (fun ch => !(ch = nulChar)) && okList rest
  | .cons _ rest => okList rest
end

mutual
/-- The key property exactly as the specification claims it: no key
that starts with an underscore or is a reflection name anywhere in the
structure, descending through lists as well as mappings. -/
def deepKeysOkDict : CtxDict → Bool
  | .nil => true
  | .cons k v rest =>
    !(startsWithUnderscore k) && !(k == "__builtins__") && !(k == "__globals__") &&
      deepKeysOkVal v && deepKeysOkDict rest
/-- The value part of deepKeysOkDict. -/
def deepKeysOkVal : CtxVal → Bool
  | .str _ => true
  | .other _ => true
  | .dict entries => deepKeysOkDict entries
  | .list elems => deepKeysOkList elems
/-- The list part of deepKeysOkDict. -/
def deepKeysOkList : CtxList → Bool
  | .nil => true
  | .cons v rest => deepKeysOkVal v && deepKeysOkList rest
end

mutual
/-- Mapping-nesting depth of a mapping body (a mapping directly or
inside a list adds one level). -/
def depthDict : CtxDict → Nat
  | .nil => 0
  | .cons _ v rest => max (depthVal v) (depthDict rest)
/-- The value part of depthDict. -/
def depthVal : CtxVal → Nat
  | .str _ => 0
  | .other _ => 0
  | .dict entries => depthDict entries + 1
  | .list elems => depthList elems
/-- The list part of depthDict. -/
def depthList : CtxList → Nat
  | .nil => 0
  | .cons v rest => max (depthVal v) (depthList rest)
end

/-- A context of mapping depth 2: a benign top-level key holding a
list that holds a mapping with an underscore key. -/
def badContext : CtxDict :=
  .cons "a" (.list (.cons (.dict (.cons "_evil" (.str ['x']) .nil)) .nil)) .nil

/-- Strict superset over the underlying sets of two component lists:
sup contains every member of sub and at least one non-member of sub.
Stated from the words of the specification invariant, for comparison
with what validateExpand actually returns. -/
def isStrictSuperList (sup sub : List String) : Bool :=
  sub.all (fun c => sup.contains c) && sup.any (fun c => !(sub.contains c))

/-- Every dependency (drawn from pool) of every element of l occurs at
a strictly smaller index of l. -/
def OrderedWrt (deps : String → List String) (pool l : List String) : Prop :=
  ∀ (j : Nat) (c : String), l[j]? = some c →
    ∀ d ∈ deps c, d ∈ pool → ∃ i, i < j ∧ l[i]? = some d

/-! ## Theorems -/

/-! ### C2: the for-else branch of the sort never raises -/

/-- C2: whenever a full scanning pass of the topological sort finds no
placeable component (as happens on a cyclic dependency table, such as
the one the repository test installs), _sort_by_dependencies does not
raise: it returns the already placed components followed by all
remaining components in their original relative order. -/
theorem sortLoop_no_placeable (deps : String → List String) (components : List String)
    (fuel : Nat) (sorted remaining : List String)
    (h : remaining.find? (placeable deps components sorted) = none) :
    sortLoop deps components fuel sorted remaining = sorted ++ remaining := by
  cases remaining with
  | nil => cases fuel <;> simp [sortLoop]
  | cons r rs =>
    cases fuel with
    | zero => rfl
    | succ fuel => simp [sortLoop, h]

/-- Witness for C2 at the cyclic table of the repository test: the
first pass over the two mutually dependent components places nothing,
and the sort returns both in their original order. -/
theorem sortLoop_no_placeable_wit :
    sortLoop CYCLIC_DEPENDENCIES ["vpc", "eks-auto"] 2 [] ["vpc", "eks-auto"] =
      [] ++ ["vpc", "eks-auto"] :=
  sortLoop_no_placeable CYCLIC_DEPENDENCIES ["vpc", "eks-auto"] 2 [] ["vpc", "eks-auto"]
    (by decide)

/-! ### C7: the eks-auto round trip -/

/-- C7: resolving the single component eks-auto adds its dependency
vpc and orders it first, and resolving the already ordered pair
returns it unchanged. -/
theorem validate_components_roundtrip :
    validate_components ["eks-auto"] = Except.ok ["vpc", "eks-auto"] ∧
      validate_components ["vpc", "eks-auto"] = Except.ok ["vpc", "eks-auto"] :=
  ⟨rfl, rfl⟩

/-! ### C3, counterexample: a path equal to the base directory is
accepted, because Path.relative_to succeeds on equality -/

/-- C3 counterexample: validate_path returns (rather than raises) when
the path equals the base directory, refuting the claim that every p
equal to base is rejected. -/
theorem validate_path_accepts_base_itself :
    validate_path ["home", "user"] (some ["home", "user"]) =
      Except.ok ["home", "user"] := rfl

/-! ### C4, counterexample: the source pattern is the 63-character DNS
label shape, not the 3-to-31-character shape of the specification -/

/-- C4 counterexample: the two-character name ab is accepted by
validate_project_name although it does not match the pattern the
claim states, refuting the claimed equivalence. -/
theorem validate_project_name_accepts_short_name :
    validate_project_name "ab" = Except.ok "ab" ∧
      specProjectNamePattern "ab" = false :=
  ⟨rfl, by decide⟩

/-! ### C5, counterexample: expansion is not strict -/

/-- C5 counterexample: requesting only vpc, which has no dependencies,
leaves the component list exactly equal to the request, so the
expanded list is not a strict superset of the requested set. -/
theorem validateExpand_not_strict_superset :
    validateExpand AVAILABLE_COMPONENTS DEPENDENCIES ["vpc"] = Except.ok ["vpc"] ∧
      isStrictSuperList ["vpc"] ["vpc"] = false :=
  ⟨rfl, by decide⟩

/-! ### C6, counterexample: duplicates in the request survive -/

/-- C6 counterexample: requesting vpc twice yields vpc twice in the
final ordered list, refuting the claim that every component appears
exactly once even if requested multiple times. -/
theorem validate_components_keeps_duplicates :
    validate_components ["vpc", "vpc"] = Except.ok ["vpc", "vpc"] ∧
      (["vpc", "vpc"] : List String).count "vpc" = 2 :=
  ⟨rfl, by decide⟩

/-! ### C8, counterexample: a mapping nested inside a list keeps its
underscore key -/

/-- C8 counterexample: a context of mapping depth 2 whose only
suspicious key sits in a mapping inside a list value passes through
sanitisation unchanged, so the output still contains a key starting
with an underscore, refuting the claim for nesting through lists. -/
theorem sanitize_leaves_underscore_key_inside_list :
    depthDict badContext + 1 ≤ 3 ∧ sanitizeDict badContext = badContext ∧
      deepKeysOkDict (sanitizeDict badContext) = false :=
  ⟨by decide, rfl, by decide⟩

/-! ### C9: validate_aws_account_id -/

/-- C9: validate_aws_account_id succeeds, returning the stripped id,
exactly when the stripped id is twelve decimal digits and differs from
the two placeholder values (which are rejected although syntactically
twelve digits); every other input fails. -/
theorem validate_aws_account_id_spec (account_id : String) :
    validate_aws_account_id account_id = Except.ok (asciiStrip account_id) ↔
      (accountIdPattern (asciiStrip account_id) = true ∧
        asciiStrip account_id ≠ "000000000000" ∧
        asciiStrip account_id ≠ "123456789012") := by
  unfold validate_aws_account_id
  split_ifs with h1 h2 h3
  · constructor
    · intro h; exact absurd h (by simp)
    · intro h; exact absurd (h1 ▸ h.1) (by decide)
  · constructor
    · intro h; exact absurd h (by simp)
    · intro h; rw [h.1] at h2; simp at h2
  · constructor
    · intro h; exact absurd h (by simp)
    · intro h; rcases h3 with h3 | h3
      · exact absurd h3 h.2.1
      · exact absurd h3 h.2.2
  · constructor
    · intro _
      refine ⟨?_, ?_, ?_⟩
      · have := h2; simpa using this
      · intro he; exact h3 (Or.inl he)
      · intro he; exact h3 (Or.inr he)
    · intro _; rfl

/-! ### C4, amended: the acceptance condition of the source -/

/-- C4 amended: on the ASCII fragment, validate_project_name succeeds,
returning the normalised (stripped, lowercased) name, exactly when the
normalised name matches the DNS label pattern of the source (1 to 63
characters, lowercase alphanumeric at both ends, hyphens allowed
inside) and is none of the reserved words tmp, temp, admin, root,
default.  The 3-to-31-character pattern of the claim is not the
pattern of the source. -/
theorem validate_project_name_amended (name : String) :
    validate_project_name name = Except.ok (pyNormalize name) ↔
      ((pyNormalize name).length ≤ MAX_PROJECT_NAME_LENGTH ∧
        projectNamePattern (pyNormalize name) = true ∧
        RESERVED_NAMES.contains (pyNormalize name) = false) := by
  unfold validate_project_name
  split_ifs with h1 h2 h3 h4
  · constructor
    · intro h; exact absurd h (by simp)
    · intro h; exact absurd (h1 ▸ h.2.1) (by decide)
  · constructor
    · intro h; exact absurd h (by simp)
    · intro h; exact absurd h.1 (not_le.mpr h2)
  · constructor
    · intro h; exact absurd h (by simp)
    · intro h; rw [h.2.1] at h3; simp at h3
  · constructor
    · intro h; exact absurd h (by simp)
    · intro h; rw [h4] at h; exact absurd h.2.2 (by simp)
  · constructor
    · intro _
      refine ⟨not_lt.mp h2, by simpa using h3, by simpa using h4⟩
    · intro _; rfl

/-! ### C3, amended: containment includes the base itself -/

/-- C3 amended: with a base directory supplied, validate_path returns
the resolved path whenever the resolution of p is the resolved base
itself or a descendant of it, provided the resolved path is within the
length bound and p carries no NUL byte; and it raises for every p
whose resolution falls outside the base.  Equality with the base is
accepted, not rejected, because Path.relative_to succeeds there. -/
theorem validate_path_amended (p base : List String) :
    ((pathStr (resolvePath p)).length ≤ MAX_PATH_LENGTH →
      pathHasNulByte p = false →
      (resolvePath base).isPrefixOf (resolvePath p) = true →
      validate_path p (some base) = Except.ok (resolvePath p)) ∧
    ((resolvePath base).isPrefixOf (resolvePath p) = false →
      ∃ msg, validate_path p (some base) = Except.error msg) := by
  constructor
  · intro hlen hnul hpre
    unfold validate_path
    rw [if_neg (not_lt.mpr hlen), if_neg (by simp [hnul])]
    show (if (resolvePath base).isPrefixOf (resolvePath p) = true then
        Except.ok (resolvePath p)
      else Except.error "Path is outside allowed directory") =
      Except.ok (resolvePath p)
    rw [if_pos hpre]
  · intro hpre
    unfold validate_path
    split_ifs with h1 h2
    · exact ⟨"Path too long", rfl⟩
    · exact ⟨"Path contains null byte", rfl⟩
    · refine ⟨"Path is outside allowed directory", ?_⟩
      show (if (resolvePath base).isPrefixOf (resolvePath p) = true then
          Except.ok (resolvePath p)
        else Except.error "Path is outside allowed directory") =
        Except.error "Path is outside allowed directory"
      rw [if_neg (by simp [hpre])]

/-- Witness for the amended C3: a file below the base resolves and is
accepted; a path outside the base is rejected. -/
theorem validate_path_amended_wit :
    validate_path ["srv", "data", "f.txt"] (some ["srv", "data"]) =
        Except.ok ["srv", "data", "f.txt"] ∧
      ∃ msg, validate_path ["etc", "passwd"] (some ["srv", "data"]) =
        Except.error msg :=
  ⟨(validate_path_amended ["srv", "data", "f.txt"] ["srv", "data"]).1
      (by decide) (by decide) (by decide),
    (validate_path_amended ["etc", "passwd"] ["srv", "data"]).2 (by decide)⟩

/-! ### C8, amended: what sanitisation guarantees -/

/-- NUL removal leaves no NUL character. -/
theorem all_not_nul_removeNul (s : List Char) :
    (removeNul s).all (fun ch => !(ch = nulChar)) = true := by
  rw [List.all_eq_true]
  intro x hx
  exact (List.mem_filter.mp hx).2

/-- Truncation only drops characters. -/
theorem mem_of_mem_truncate10000 (s : List Char) (x : Char)
    (h : x ∈ truncate10000 s) : x ∈ s := by
  unfold truncate10000 at h
  split at h
  · exact List.mem_of_mem_take h
  · exact h

/-- Truncation caps the length at 10000. -/
theorem length_truncate10000 (s : List Char) :
    (truncate10000 s).length ≤ 10000 := by
  unfold truncate10000
  split
  · simp [List.length_take]
  · omega

/-- A direct string value is NUL-free and within the cap after
sanitisation. -/
theorem okVal_str_sanitized (s : List Char) :
    okVal (.str (truncate10000 (removeNul s))) = true := by
  rw [okVal]
  simp only [Bool.and_eq_true]
  refine ⟨?_, by simpa using length_truncate10000 (removeNul s)⟩
  rw [List.all_eq_true]
  intro x hx
  exact (List.all_eq_true.mp (all_not_nul_removeNul s)) x (mem_of_mem_truncate10000 _ _ hx)

mutual
/-- Keys retained by sanitisation of a mapping satisfy okDict. -/
theorem okDict_sanitizeDict_aux : ∀ entries : CtxDict, okDict (sanitizeDict entries) = true
  | .nil => rfl
  | .cons k v rest => by
    rw [sanitizeDict]
    split
    · exact okDict_sanitizeDict_aux rest
    · rename_i hk
      rw [okDict]
      simp only [Bool.and_eq_true]
      simp only [Bool.or_eq_true, not_or] at hk
      refine ⟨⟨⟨⟨?_, ?_⟩, ?_⟩, okVal_sanitizeVal_aux v⟩, okDict_sanitizeDict_aux rest⟩
      · simpa using hk.1.1
      · simpa using hk.1.2
      · simpa using hk.2
/-- Values produced by sanitisation satisfy okVal. -/
theorem okVal_sanitizeVal_aux : ∀ v : CtxVal, okVal (sanitizeVal v) = true
  | .str s => okVal_str_sanitized s
  | .dict entries => okDict_sanitizeDict_aux entries
  | .list elems => okList_sanitizeList_aux elems
  | .other _ => rfl
/-- List values produced by sanitisation satisfy okList. -/
theorem okList_sanitizeList_aux : ∀ elems : CtxList, okList (sanitizeList elems) = true
  | .nil => rfl
  | .cons (.str s) rest => by
    show ((removeNul s).all (fun ch => !(ch = nulChar)) && okList (sanitizeList rest)) = true
    simp only [Bool.and_eq_true]
    exact ⟨all_not_nul_removeNul s, okList_sanitizeList_aux rest⟩
  | .cons (.dict d) rest => okList_sanitizeList_aux rest
  | .cons (.list l) rest => okList_sanitizeList_aux rest
  | .cons (.other n) rest => okList_sanitizeList_aux rest
end

/-- C8 amended: for every context mapping (any nesting depth),
sanitize_template_context leaves no retained key that starts with an
underscore or equals a reflection name along chains of mappings, and
strips NUL from and caps direct string values, and strips NUL from
string elements of list values; mappings nested inside list values are
passed through unexamined, which is why the claim fails for them. -/
theorem sanitize_template_context_amended (context : CtxDict) :
    okDict (sanitizeDict context) = true :=
  okDict_sanitizeDict_aux context

/-! ### The sort returns a permutation of its input -/

/-- Helper: every iteration of the while loop preserves the multiset
of components: the placed component moves from remaining to
sorted_components, and the for-else branch moves all of remaining at
once. -/
theorem sortLoop_perm (deps : String → List String) (components : List String) :
    ∀ (fuel : Nat) (sorted remaining : List String),
      (sortLoop deps components fuel sorted remaining).Perm (sorted ++ remaining) := by
  intro fuel
  induction fuel with
  | zero =>
    intro sorted remaining
    cases remaining <;> simp [sortLoop]
  | succ fuel ih =>
    intro sorted remaining
    cases remaining with
    | nil => simp [sortLoop]
    | cons r rs =>
      rw [sortLoop]
      · cases hf : (r :: rs).find? (placeable deps components sorted) with
        | none => exact List.Perm.refl _
        | some c =>
          have hc : c ∈ r :: rs := List.mem_of_find?_eq_some hf
          have hstep : (c :: (r :: rs).erase c).Perm (r :: rs) :=
            (List.perm_cons_erase hc).symm
          refine (ih (sorted ++ [c]) ((r :: rs).erase c)).trans ?_
          rw [List.append_assoc]
          exact hstep.append_left sorted
      · simp

/-- Helper: the top-level sort returns a permutation of its input. -/
theorem sortByDependencies_perm_aux (deps : String → List String)
    (components : List String) :
    (sortByDependencies deps components).Perm components := by
  unfold sortByDependencies
  simpa using sortLoop_perm deps components components.length [] components

/-- C10: for every input list and every dependency table (duplicates,
unknown names and cyclic registries included), _sort_by_dependencies
terminates (it is a total function here) and returns a permutation of
its input: the same elements with the same multiplicities. -/
theorem sortByDependencies_permutation (deps : String → List String)
    (components : List String) :
    (sortByDependencies deps components).Perm components :=
  sortByDependencies_perm_aux deps components

/-! ### Dependency expansion lemmas -/

/-- Helper: one step of the inner append loop. -/
theorem appendNewDeps_cons (lst : List String) (d : String) (ds : List String) :
    appendNewDeps lst (d :: ds) =
      appendNewDeps (if lst.contains d then lst else lst ++ [d]) ds := rfl

/-- Helper: the append loop only extends the list. -/
theorem appendNewDeps_extends (ds : List String) :
    ∀ lst : List String, ∃ t, appendNewDeps lst ds = lst ++ t := by
  induction ds with
  | nil => intro lst; exact ⟨[], by simp [appendNewDeps]⟩
  | cons d ds ih =>
    intro lst
    rw [appendNewDeps_cons]
    by_cases h : lst.contains d
    · rw [if_pos h]; exact ih lst
    · rw [if_neg h]
      obtain ⟨t, ht⟩ := ih (lst ++ [d])
      exact ⟨d :: t, by simpa [List.append_assoc] using ht⟩

/-- Helper: membership is preserved by the append loop. -/
theorem mem_appendNewDeps (lst ds : List String) (c : String) (h : c ∈ lst) :
    c ∈ appendNewDeps lst ds := by
  obtain ⟨t, ht⟩ := appendNewDeps_extends ds lst
  rw [ht]
  exact List.mem_append_left _ h

/-- Helper: after the append loop every processed dependency is
present. -/
theorem deps_mem_appendNewDeps (ds : List String) :
    ∀ lst : List String, ∀ d ∈ ds, d ∈ appendNewDeps lst ds := by
  induction ds with
  | nil => intro lst d hd; cases hd
  | cons d0 ds ih =>
    intro lst d hd
    rw [appendNewDeps_cons]
    rcases List.mem_cons.mp hd with rfl | hd2
    · apply mem_appendNewDeps
      by_cases h : lst.contains d
      · rw [if_pos h]; simpa using h
      · rw [if_neg h]; simp
    · exact ih _ d hd2

/-- Helper: the append loop never adds another copy of an element
already present. -/
theorem count_appendNewDeps (ds : List String) (c : String) :
    ∀ lst : List String, c ∈ lst →
      (appendNewDeps lst ds).count c = lst.count c := by
  induction ds with
  | nil => intro lst _; rfl
  | cons d ds ih =>
    intro lst hc
    rw [appendNewDeps_cons]
    by_cases h : lst.contains d
    · rw [if_pos h]; exact ih lst hc
    · rw [if_neg h]
      have hdc : ¬(d = c) := fun e => h (by subst e; simpa using hc)
      rw [ih (lst ++ [d]) (List.mem_append_left _ hc), List.count_append,
        List.count_singleton]
      simp [hdc]

/-- Helper: the append loop keeps counts at most one for elements that
had count at most one. -/
theorem count_le_one_appendNewDeps (ds : List String) (c : String) :
    ∀ lst : List String, lst.count c ≤ 1 →
      (appendNewDeps lst ds).count c ≤ 1 := by
  induction ds with
  | nil => intro lst h; exact h
  | cons d ds ih =>
    intro lst h
    rw [appendNewDeps_cons]
    by_cases hcont : lst.contains d
    · rw [if_pos hcont]; exact ih lst h
    · rw [if_neg hcont]
      apply ih
      rw [List.count_append, List.count_singleton]
      by_cases hdc : d = c
      · subst hdc
        have h0 : lst.count d = 0 := List.count_eq_zero.mpr (by simpa using hcont)
        simp [h0]
      · simp only [beq_iff_eq, hdc, if_false]
        omega

/-- Helper: the expansion loop only extends the component list. -/
theorem expandLoop_extends (avail : List String) (deps : String → List String) :
    ∀ (fuel i : Nat) (lst res : List String),
      expandLoop avail deps fuel i lst = Except.ok res → ∃ t, res = lst ++ t := by
  intro fuel
  induction fuel with
  | zero => intro i lst res h; simp [expandLoop] at h
  | succ fuel ih =>
    intro i lst res h
    rw [expandLoop] at h
    split at h
    · cases h
      exact ⟨[], by simp⟩
    · rename_i c hgi
      split_ifs at h with hav
      obtain ⟨t1, ht1⟩ := appendNewDeps_extends (deps c) lst
      obtain ⟨t2, ht2⟩ := ih (i + 1) (appendNewDeps lst (deps c)) res h
      exact ⟨t1 ++ t2, by rw [ht2, ht1, List.append_assoc]⟩

/-- Helper: expansion never duplicates an element already present. -/
theorem expandLoop_count_eq (avail : List String) (deps : String → List String)
    (c : String) :
    ∀ (fuel i : Nat) (lst res : List String), c ∈ lst →
      expandLoop avail deps fuel i lst = Except.ok res →
      res.count c = lst.count c := by
  intro fuel
  induction fuel with
  | zero => intro i lst res _ h; simp [expandLoop] at h
  | succ fuel ih =>
    intro i lst res hc h
    rw [expandLoop] at h
    split at h
    · cases h; rfl
    · rename_i c0 hgi
      split_ifs at h with hav
      rw [ih (i + 1) (appendNewDeps lst (deps c0)) res
        (mem_appendNewDeps lst (deps c0) c hc) h]
      exact count_appendNewDeps (deps c0) c lst hc

/-- Helper: expansion keeps the count of an element that starts with
count at most one (it appends a dependency only when absent). -/
theorem expandLoop_count_le_one (avail : List String) (deps : String → List String)
    (c : String) :
    ∀ (fuel i : Nat) (lst res : List String), lst.count c ≤ 1 →
      expandLoop avail deps fuel i lst = Except.ok res →
      res.count c ≤ 1 := by
  intro fuel
  induction fuel with
  | zero => intro i lst res _ h; simp [expandLoop] at h
  | succ fuel ih =>
    intro i lst res hc h
    rw [expandLoop] at h
    split at h
    · cases h; exact hc
    · rename_i c0 hgi
      split_ifs at h with hav
      exact ih (i + 1) (appendNewDeps lst (deps c0)) res
        (count_le_one_appendNewDeps (deps c0) c lst hc) h

/-- Helper: after a successful expansion pass, the result is closed
under the dependency table: every element that was processed had its
dependencies appended (or already present), and every element of the
result is processed before the loop ends. -/
theorem expandLoop_closed (avail : List String) (deps : String → List String) :
    ∀ (fuel i : Nat) (lst res : List String),
      (∀ x ∈ lst.take i, ∀ d ∈ deps x, d ∈ lst) →
      expandLoop avail deps fuel i lst = Except.ok res →
      ∀ x ∈ res, ∀ d ∈ deps x, d ∈ res := by
  intro fuel
  induction fuel with
  | zero => intro i lst res _ h; simp [expandLoop] at h
  | succ fuel ih =>
    intro i lst res hpre h
    rw [expandLoop] at h
    split at h
    · rename_i hgi
      cases h
      have hlen : lst.length ≤ i := by
        by_contra hlt
        push_neg at hlt
        rw [List.getElem?_eq_getElem hlt] at hgi
        cases hgi
      rw [List.take_of_length_le hlen] at hpre
      exact hpre
    · rename_i c hgi
      split_ifs at h with hav
      refine ih (i + 1) (appendNewDeps lst (deps c)) res ?_ h
      intro x hx d hd
      obtain ⟨t, ht⟩ := appendNewDeps_extends (deps c) lst
      have hil : i < lst.length := (List.getElem?_eq_some.mp hgi).1
      rw [ht, List.take_append_of_le_length (by omega), List.take_succ, hgi] at hx
      rcases List.mem_append.mp hx with hx1 | hx2
      · exact mem_appendNewDeps lst (deps c) d (hpre x hx1 d hd)
      · have hxc : x = c := by simpa using hx2
        subst hxc
        exact deps_mem_appendNewDeps (deps x) lst d hd

/-! ### C5, amended: a superset, not necessarily strict -/

/-- C5 amended: after the dependency-expansion step of
validate_components, the component list begins with the originally
requested list and therefore contains every originally requested
component; it need not contain anything beyond the request (requests
whose dependencies are already present are returned unchanged), so the
superset is not strict in general. -/
theorem validateExpand_superset (components mid : List String)
    (h : validateExpand AVAILABLE_COMPONENTS DEPENDENCIES components =
      Except.ok mid) :
    (∀ c, c ∈ components → c ∈ mid) ∧ ∃ t, mid = components ++ t := by
  unfold validateExpand at h
  obtain ⟨t, ht⟩ := expandLoop_extends AVAILABLE_COMPONENTS DEPENDENCIES _ _ _ _ h
  exact ⟨fun c hc => ht ▸ List.mem_append_left _ hc, ⟨t, ht⟩⟩

/-- Witness for the amended C5: requesting eks-auto expands to the
pair with vpc appended after the request. -/
theorem validateExpand_superset_wit :
    (∀ c, c ∈ (["eks-auto"] : List String) →
      c ∈ (["eks-auto", "vpc"] : List String)) ∧
      ∃ t, (["eks-auto", "vpc"] : List String) = ["eks-auto"] ++ t :=
  validateExpand_superset ["eks-auto"] ["eks-auto", "vpc"] rfl

/-! ### C6, amended: multiplicities are preserved, not collapsed -/

/-- C6 amended: the final ordered list of validate_components carries
each requested component with exactly its multiplicity in the request
(duplicates are preserved, not collapsed to one), and carries each
component that was not requested (an auto-added dependency) at most
once. -/
theorem validate_components_multiplicity (components result : List String)
    (h : validate_components components = Except.ok result) :
    (∀ c, c ∈ components → result.count c = components.count c) ∧
    (∀ c, c ∉ components → result.count c ≤ 1) := by
  unfold validate_components at h
  cases hve : validateExpand AVAILABLE_COMPONENTS DEPENDENCIES components with
  | error e => rw [hve] at h; cases h
  | ok mid =>
    rw [hve] at h
    cases h
    unfold validateExpand at hve
    have hperm := sortByDependencies_perm_aux DEPENDENCIES mid
    constructor
    · intro c hc
      rw [hperm.count_eq c]
      exact expandLoop_count_eq AVAILABLE_COMPONENTS DEPENDENCIES c _ _ _ _ hc hve
    · intro c hc
      rw [hperm.count_eq c]
      refine expandLoop_count_le_one AVAILABLE_COMPONENTS DEPENDENCIES c _ _ _ _ ?_ hve
      rw [List.count_eq_zero.mpr hc]
      omega

/-- Witness for the amended C6 at the eks-auto request: the requested
component keeps its multiplicity and the auto-added vpc appears at
most once. -/
theorem validate_components_multiplicity_wit :
    (["vpc", "eks-auto"] : List String).count "eks-auto" =
        (["eks-auto"] : List String).count "eks-auto" ∧
      (["vpc", "eks-auto"] : List String).count "vpc" ≤ 1 :=
  ⟨(validate_components_multiplicity ["eks-auto"] ["vpc", "eks-auto"] rfl).1
      "eks-auto" (by decide),
    (validate_components_multiplicity ["eks-auto"] ["vpc", "eks-auto"] rfl).2
      "vpc" (by decide)⟩

/-! ### C1: dependencies come strictly earlier in the resolved order -/

/-- Helper: what the scanning condition guarantees about the found
component. -/
theorem placeable_spec (deps : String → List String)
    (components sorted : List String) (c : String)
    (h : placeable deps components sorted c = true) :
    ∀ d ∈ deps c, d ∈ sorted ∨ d ∉ components := by
  intro d hd
  have hb := List.all_eq_true.mp h d hd
  simpa using hb

/-- Helper: in the registry of the source every dependency that
appears anywhere is vpc. -/
theorem mem_DEPENDENCIES (c d : String) (h : d ∈ DEPENDENCIES c) : d = "vpc" := by
  unfold DEPENDENCIES at h
  split at h <;> simp_all

/-- Helper: appending a component whose dependencies are already
placed (or foreign to the pool) preserves the ordering invariant. -/
theorem orderedWrt_append (deps : String → List String)
    (pool sorted : List String) (c : String)
    (hs : OrderedWrt deps pool sorted)
    (hc : ∀ d ∈ deps c, d ∈ sorted ∨ d ∉ pool) :
    OrderedWrt deps pool (sorted ++ [c]) := by
  intro j c0 hj d hd hdp
  rcases lt_trichotomy j sorted.length with hlt | heq | hgt
  · rw [List.getElem?_append, if_pos hlt] at hj
    obtain ⟨i, hij, hi⟩ := hs j c0 hj d hd hdp
    have hib : i < sorted.length := lt_trans hij hlt
    exact ⟨i, hij, by rw [List.getElem?_append, if_pos hib]; exact hi⟩
  · rw [heq, List.getElem?_concat_length] at hj
    cases hj
    rcases hc d hd with hmem | hnot
    · obtain ⟨i, hi⟩ := List.getElem?_of_mem hmem
      have hib : i < sorted.length := (List.getElem?_eq_some.mp hi).1
      exact ⟨i, heq ▸ hib, by rw [List.getElem?_append, if_pos hib]; exact hi⟩
    · exact absurd hdp hnot
  · have hnone : (sorted ++ [c]).length ≤ j := by
      rw [List.length_append]
      simpa using hgt
    rw [List.getElem?_eq_none hnone] at hj
    cases hj

/-- Helper: with the registry of the source the while loop maintains
the ordering invariant, and the for-else branch is unreachable: vpc is
always placeable (it has no dependencies), and any other component is
placeable as soon as vpc is placed or absent. -/
theorem sortLoop_ordered (components : List String) :
    ∀ (fuel : Nat) (sorted remaining : List String),
      remaining.length ≤ fuel →
      ("vpc" ∈ components → "vpc" ∈ sorted ∨ "vpc" ∈ remaining) →
      OrderedWrt DEPENDENCIES components sorted →
      OrderedWrt DEPENDENCIES components
        (sortLoop DEPENDENCIES components fuel sorted remaining) := by
  intro fuel
  induction fuel with
  | zero =>
    intro sorted remaining hlen hvpc hs
    have hnil : remaining = [] := List.eq_nil_of_length_eq_zero (Nat.le_zero.mp hlen)
    subst hnil
    simpa [sortLoop] using hs
  | succ fuel ih =>
    intro sorted remaining hlen hvpc hs
    cases remaining with
    | nil => simpa [sortLoop] using hs
    | cons r rs =>
      rw [sortLoop]
      · cases hf : (r :: rs).find? (placeable DEPENDENCIES components sorted) with
        | some c =>
          have hc : c ∈ r :: rs := List.mem_of_find?_eq_some hf
          apply ih
          · rw [List.length_erase_of_mem hc]
            simp only [List.length_cons] at hlen ⊢
            omega
          · intro hv
            rcases hvpc hv with hvs | hvr
            · left; exact List.mem_append_left _ hvs
            · by_cases hvc : "vpc" = c
              · left; rw [hvc]; exact List.mem_append_right _ (by simp)
              · right; exact (List.mem_erase_of_ne hvc).mpr hvr
          · exact orderedWrt_append DEPENDENCIES components sorted c hs
              (placeable_spec DEPENDENCIES components sorted c (List.find?_some hf))
        | none =>
          exfalso
          have hall := List.find?_eq_none.mp hf
          by_cases hv : "vpc" ∈ components
          · rcases hvpc hv with hvs | hvr
            · apply hall r (by simp)
              rw [placeable, List.all_eq_true]
              intro d hd
              rw [mem_DEPENDENCIES r d hd]
              simp [hvs]
            · refine hall "vpc" hvr ?_
              rw [placeable, show DEPENDENCIES "vpc" = [] from rfl]
              rfl
          · apply hall r (by simp)
            rw [placeable, List.all_eq_true]
            intro d hd
            rw [mem_DEPENDENCIES r d hd]
            simp [hv]
      · simp

/-- Helper: the full sort under the registry of the source yields a
list in which every dependency drawn from the working set appears
strictly earlier. -/
theorem sortByDependencies_ordered (components : List String) :
    OrderedWrt DEPENDENCIES components (sortByDependencies DEPENDENCIES components) := by
  unfold sortByDependencies
  apply sortLoop_ordered components components.length [] components le_rfl
  · intro h; exact Or.inr h
  · intro j c hj
    simp at hj

/-- C1: in the ordered list produced by validate_components, every
dependency of every component appears at a strictly smaller index than
the component itself.  The registry of the source is acyclic, so the
cycle exception of the claim is never exercised and the guarantee is
unconditional. -/
theorem validate_components_dep_order (components result : List String)
    (j : Nat) (c d : String)
    (h : validate_components components = Except.ok result)
    (hj : result[j]? = some c) (hd : d ∈ DEPENDENCIES c) :
    ∃ i, i < j ∧ result[i]? = some d := by
  unfold validate_components at h
  cases hve : validateExpand AVAILABLE_COMPONENTS DEPENDENCIES components with
  | error e => rw [hve] at h; cases h
  | ok mid =>
    rw [hve] at h
    cases h
    have hperm := sortByDependencies_perm_aux DEPENDENCIES mid
    have hcmem : c ∈ sortByDependencies DEPENDENCIES mid := by
      obtain ⟨hlt, he⟩ := List.getElem?_eq_some.mp hj
      exact he ▸ List.getElem_mem hlt
    have hcmid : c ∈ mid := hperm.mem_iff.mp hcmem
    have hdmid : d ∈ mid := by
      unfold validateExpand at hve
      exact expandLoop_closed AVAILABLE_COMPONENTS DEPENDENCIES _ _ _ _
        (by simp) hve c hcmid d hd
    exact sortByDependencies_ordered mid j c hj d hd hdmid

/-- Witness for C1: for the request of eks-auto alone, the dependency
vpc of the component at index 1 appears at an index below 1. -/
theorem validate_components_dep_order_wit :
    ∃ i, i < 1 ∧ (["vpc", "eks-auto"] : List String)[i]? = some "vpc" :=
  validate_components_dep_order ["eks-auto"] ["vpc", "eks-auto"] 1 "eks-auto" "vpc"
    rfl (by decide) (by decide)
